import Mathlib

/-!
Verification of the notification grouping engine of the `admin-x-activitypub`
Notifications view (source file: the `Notifications` component with its helpers
`groupActivities`, `getActivityBadge` and `NotificationGroupDescription`).

The shallow embedding below translates the data model and the pure data-shaping
logic of that file.  JavaScript records with possibly-absent fields become
structures with `Option` fields; JavaScript `===` on possibly-`undefined`
values becomes equality of `Option String` (where `none = none` is true, just
as `undefined === undefined`); a thrown `TypeError` (reading a property of
`undefined`) becomes an `Option.none` result of the whole computation.
-/

namespace Ghost

/-- An actor reference (`ActorProperties`): only the fields the notification
logic reads. `id` and `name` may be absent at runtime. -/
structure Actor where
  id : Option String
  name : Option String
deriving DecidableEq

/-- The object stored under `object.inReplyTo` when it is a full object:
the notification logic reads `content`, `name` and `attributedTo.id`. -/
structure ReplyObject where
  name : Option String
  content : Option String
  attributedTo : Option Actor
deriving DecidableEq

/-- `object.inReplyTo` is either a bare string reference or a full object
(the code distinguishes them with `typeof ... !== 'string'`). -/
inductive InReplyTo where
  | ref (url : String)
  | obj (o : ReplyObject)
deriving DecidableEq

/-- The activity object (`ObjectProperties`): fields read by the filters,
the grouper and the description classifier. -/
structure ApObject where
  id : Option String
  type : Option String
  name : Option String
  content : Option String
  attributedTo : Option Actor
  inReplyTo : Option InReplyTo
deriving DecidableEq

/-- A raw activity record. `type` is the activity type string
(`"Create" | "Like" | "Follow" | "Announce"` for the four handled cases);
`actor` and `object` may be absent in malformed records. -/
structure Activity where
  id : Option String
  type : String
  actor : Option Actor
  object : Option ApObject
deriving DecidableEq

/-- The output record of `groupActivities` (`GroupedActivity`).  The `actors`
array is an array of JavaScript values: it can hold `undefined` (an
actor-less activity that seeds a fresh group pushes its `undefined` actor,
since `[].find` never invokes its callback), so its elements are
`Option Actor`. -/
structure GroupedActivity where
  type : String
  actors : List (Option Actor)
  object : Option ApObject
  id : Option String
deriving DecidableEq

/-- `activity.actor?.id` (optional chaining). -/
def actorId (a : Activity) : Option String := a.actor.bind Actor.id

/-- `activity.object?.id` (optional chaining). -/
def objectId (a : Activity) : Option String := a.object.bind ApObject.id

/-- `activity.object?.attributedTo?.id` (optional chaining). -/
def attrId (a : Activity) : Option String :=
  (a.object.bind ApObject.attributedTo).bind Actor.id

/-- `activity.object?.inReplyTo?.attributedTo?.id`: reading `.attributedTo`
of a bare string reference yields `undefined` in JavaScript, hence `none`. -/
def replyAttrId (a : Activity) : Option String :=
  match a.object.bind ApObject.inReplyTo with
  | some (InReplyTo.obj r) => r.attributedTo.bind Actor.id
  | _ => none

/-- The grouping key computed by the `switch` in `groupActivities`
(source lines 63–87).  `groupKey` starts as the empty string; `Follow` sets
the constant key `` `follow_${activity.type}` ``; `Like`/`Announce` set a key
only when `activity.object?.id` is truthy (a nonempty string); `Create` sets
`` `create_${activity.id}` ``, where a JavaScript template literal renders a
missing `id` as the string `"undefined"`. -/
def groupKey (a : Activity) : String :=
  if a.type = "Follow" then "follow_" ++ a.type
  else if a.type = "Like" then
    match objectId a with
    | some oid => if oid = "" then "" else "like_" ++ oid
    | none => ""
  else if a.type = "Announce" then
    match objectId a with
    | some oid => if oid = "" then "" else "announce_" ++ oid
    | none => ""
  else if a.type = "Create" then "create_" ++ a.id.getD "undefined"
  else ""

/-- The run of `actors.find(a => a.id === activity.actor.id)` on source line
99, with its exact evaluation order: `Array.prototype.find` invokes the
callback once per element until a truthy result, and never on an empty
array.  Each invocation first reads `a.id` (a `TypeError` when the stored
element is `undefined`) and then `activity.actor.id` (a `TypeError` when the
current activity's actor is absent).  `none` models the throw; `some b`
models normal completion, where `b` says whether a (truthy) element was
found. -/
def findActorJs (act? : Option Actor) : List (Option Actor) → Option Bool
  | [] => some false
  | none :: _ => none
  | some y :: rest =>
    match act? with
    | none => none
    | some act => if y.id = act.id then some true else findActorJs act? rest

/-- Property lookup `groups[groupKey]` on the accumulator object, modelled as
an insertion-ordered association list (all keys produced by `groupKey` are
non-integer-index strings, so JavaScript preserves insertion order). -/
def lookupKey (k : String) : List (String × GroupedActivity) → Option GroupedActivity
  | [] => none
  | p :: m => if p.1 = k then some p.2 else lookupKey k m

/-- `groups[groupKey].actors.push(activity.actor)` (source line 100): append
the current activity's actor — possibly `undefined` — to the entry of key
`k`. -/
def pushActor (k : String) (act? : Option Actor)
    (m : List (String × GroupedActivity)) : List (String × GroupedActivity) :=
  m.map (fun p =>
    if p.1 = k then (p.1, { p.2 with actors := p.2.actors ++ [act?] }) else p)

/-- The find-and-push of source lines 98–101 restricted to groups whose
stored actors are all present: the total reference model used on that
domain.  `groupsAux_eq_pure` proves it agrees there with `findActorJs`
followed by `pushActor`. -/
def addActorIfNew (g : GroupedActivity) (act : Actor) : GroupedActivity :=
  if (g.actors.find? (fun x => decide (x.bind Actor.id = act.id))).isSome then g
  else { g with actors := g.actors ++ [some act] }

/-- In-place update of the accumulator entry for key `k` by `addActorIfNew`
(reference model of one accumulation step on the actor-present domain). -/
def updateKey (k : String) (act : Actor) (m : List (String × GroupedActivity)) :
    List (String × GroupedActivity) :=
  m.map (fun p => if p.1 = k then (p.1, addActorIfNew p.2 act) else p)

/-- The `activities.forEach` loop of `groupActivities` (source lines 63–102).
A missing key seeds `groups[groupKey] = {type, actors: [], object, id}`; the
`find` of line 99 then runs over that freshly-seeded empty array, so its
callback never executes and line 100 pushes `activity.actor` — possibly
`undefined` — unconditionally (the seeded entry below therefore starts with
`[a.actor]`).  On an existing group the find may throw (see `findActorJs`):
it reads `a.id` of each stored element and `activity.actor.id`; the thrown
computation is modelled as `none`.  When the find returns a (truthy) found
element, nothing is pushed. -/
def groupsAux : List (String × GroupedActivity) → List Activity →
    Option (List (String × GroupedActivity))
  | acc, [] => some acc
  | acc, a :: l =>
    match lookupKey (groupKey a) acc with
    | none =>
      groupsAux (acc ++ [(groupKey a, ⟨a.type, [a.actor], a.object, a.id⟩)]) l
    | some g =>
      match findActorJs a.actor g.actors with
      | none => none
      | some true => groupsAux acc l
      | some false => groupsAux (pushActor (groupKey a) a.actor acc) l

/-- `groupActivities` (source lines 59–106): run the accumulation loop and
return `Object.values(groups)`, i.e. the grouped values in insertion order. -/
def groupActivities (l : List Activity) : Option (List GroupedActivity) :=
  (groupsAux [] l).map (List.map Prod.snd)

/-- The de-duplication filter of the `Notifications` pipeline (source lines
190–192): `filter((activity, index, self) => index === self.findIndex(a =>
a.id === activity.id))`. -/
def dedupById (l : List Activity) : List Activity :=
  (l.enum.filter
    (fun p => decide (l.findIdx (fun b => decide (b.id = p.2.id)) = p.1))).map Prod.snd

/-- Filter "Remove our own likes" (source lines 194–200). -/
def keepNotOwnLike (v : Option String) (a : Activity) : Bool :=
  if a.type = "Like" ∧ actorId a = v then false else true

/-- Filter "Remove follower likes if they are not for our own posts"
(source lines 202–208). -/
def keepLikeOnOwn (v : Option String) (a : Activity) : Bool :=
  if a.type = "Like" ∧ ¬ attrId a = v then false else true

/-- Filter "Remove reposts that are not for our own posts"
(source lines 210–216). -/
def keepAnnounceOnOwn (v : Option String) (a : Activity) : Bool :=
  if a.type = "Announce" ∧ ¬ attrId a = v then false else true

/-- Filter "Remove create activities that are not replies to our own posts"
(source lines 218–227). -/
def keepCreateReplyToOwn (v : Option String) (a : Activity) : Bool :=
  if a.type = "Create" ∧ ¬ replyAttrId a = v then false else true

/-- Filter "Remove our own create activities" (source lines 229–238). -/
def keepNotOwnCreate (v : Option String) (a : Activity) : Bool :=
  if a.type = "Create" ∧ actorId a = v then false else true

/-- The five content filters chained after de-duplication, in source order.
`v` is `userProfile?.id` (absent while the profile is loading). -/
def contentFilter (v : Option String) (l : List Activity) : List Activity :=
  ((((l.filter (keepNotOwnLike v)).filter (keepLikeOnOwn v)).filter
    (keepAnnounceOnOwn v)).filter (keepCreateReplyToOwn v)).filter
    (keepNotOwnCreate v)

/-- The whole filter chain applied to one page: de-duplication, then the five
content filters (source lines 188–238). -/
def filterPage (v : Option String) (page : List Activity) : List Activity :=
  contentFilter v (dedupById page)

/-- One page of the pipeline: filter then group (source lines 187–241). -/
def processPage (v : Option String) (page : List Activity) :
    Option (List GroupedActivity) :=
  groupActivities (filterPage v page)

/-- `data?.pages.flatMap(page => groupActivities(filtered))`: each page is
filtered and grouped independently and the per-page group lists are
concatenated; an exception on any page aborts the whole computation. -/
def processPages (v : Option String) : List (List Activity) →
    Option (List GroupedActivity)
  | [] => some []
  | p :: ps =>
    match processPage v p, processPages v ps with
    | some gs, some rest => some (gs ++ rest)
    | _, _ => none

/-- `getActivityBadge` (source lines 46–57): the `switch` has no default, so
a group of an unknown type gets no badge. -/
def getActivityBadge (g : GroupedActivity) : Option String :=
  if g.type = "Create" then some "reply"
  else if g.type = "Follow" then some "follow"
  else if g.type = "Like" then some "like"
  else if g.type = "Announce" then some "repost"
  else none

/-- Modelled from the spec: the repository's `stripHtml` helper (imported from
`@src/utils/content-formatters`) is not among the provided source files; the
spec only says the content is "stripped of markup".  This model removes every
`<`…`>` tag span. -/
def stripHtml (s : String) : String :=
  String.mk (((s.data.foldl (fun st c =>
    match st, c with
    | (false, acc), '<' => (true, acc)
    | (false, acc), ch => (false, ch :: acc)
    | (true, acc), '>' => (false, acc)
    | (true, acc), _ => (true, acc)) ((false : Bool), ([] : List Char))).2).reverse)

/-- Modelled from the spec: the repository's `truncate` helper (imported from
`@utils/truncate`) is not among the provided source files; the spec says the
excerpt is "truncated to 80 characters", so `truncate s n` keeps the first
`n` characters. -/
def truncate (s : String) (n : Nat) : String := String.mk (s.data.take n)

/-- The text rendered for the actor list of a group (source lines 109–131):
the first actor's name; a second actor joined by `" and "`, or by `", "` when
further actors follow, in which case `" and others"` is appended.  Reading
`firstActor.name` throws when the list is empty or its first element is
`undefined` (modelled as `none`); `{secondActor && …}` short-circuits, so an
`undefined` second element renders nothing and does not throw; React renders
a missing `name` as the empty string. -/
def actorText : List (Option Actor) → Option String
  | [] => none
  | none :: _ => none
  | [some a] => some (a.name.getD "")
  | [some a, some b] => some (a.name.getD "" ++ " and " ++ b.name.getD "")
  | [some a, none] => some (a.name.getD "")
  | some a :: some b :: _ :: _ =>
    some (a.name.getD "" ++ ", " ++ b.name.getD "" ++ " and others")
  | some a :: none :: _ :: _ => some (a.name.getD "" ++ " and others")

/-- The reply excerpt of the `Create` branch of `NotificationGroupDescription`
(source lines 140–151): rendered only when `object.inReplyTo` is a full
object; the content falls back from `inReplyTo.content` to `inReplyTo.name`
when the latter is truthy, is stripped of markup and truncated to 80
characters. -/
def replyExcerpt (g : GroupedActivity) : Option String :=
  match g.object.bind ApObject.inReplyTo with
  | some (InReplyTo.obj r) =>
    some (truncate
      (match r.name with
       | some n => if n = "" then stripHtml (r.content.getD "") else stripHtml n
       | none => stripHtml (r.content.getD "")) 80)
  | _ => none

/-- The text of `NotificationGroupDescription` (source lines 108–154) for a
group, flattening the rendered fragments to a plain string: `none` models the
throw on an empty or `undefined`-first actor list (`firstActor.name`); the
fall-through cases render an empty fragment. -/
def describeGroup (g : GroupedActivity) : Option String :=
  match actorText g.actors with
  | none => none
  | some t =>
    if g.type = "Follow" then some (t ++ " started following you")
    else if g.type = "Like" then
      some (t ++ " liked your " ++
        (if (g.object.bind ApObject.type) = some "Article" then "post" else "note") ++
        " " ++ ((g.object.bind ApObject.name).getD ""))
    else if g.type = "Announce" then
      some (t ++ " reposted your " ++
        (if (g.object.bind ApObject.type) = some "Article" then "post" else "note") ++
        " " ++ ((g.object.bind ApObject.name).getD ""))
    else if g.type = "Create" then
      match replyExcerpt g with
      | some e => some (t ++ " replied to your post " ++ e)
      | none => some ""
    else some ""

/-!
## Reference model: first-occurrence de-duplication by key
-/

/-- First-occurrence de-duplication by a key, carrying the list of already-seen
keys: the reference model for the activity de-duplication step, for the
per-group actor de-duplication, and for the first-seen order of grouping
keys. -/
def dedupBy {κ α : Type} [DecidableEq κ] (key : α → κ) : List κ → List α → List α
  | _, [] => []
  | seen, x :: xs =>
    if key x ∈ seen then dedupBy key seen xs
    else x :: dedupBy key (key x :: seen) xs

/-- Generalisation of `dedupById` used to run the induction: the filter over
the enumerated list with an extra list of banned ids. -/
def dedupExcl (banned : List (Option String)) (l : List Activity) : List Activity :=
  (l.enum.filter (fun p => decide (p.2.id ∉ banned) &&
    decide (l.findIdx (fun b => decide (b.id = p.2.id)) = p.1))).map Prod.snd


/-- `activity.actor` as read on line 99; total stand-in used by the pure model
(only ever applied where the actor is present). -/
def actorD (a : Activity) : Actor := a.actor.getD ⟨none, none⟩

/-- Folding `addActorIfNew` over a list of actors. -/
def extendA (g : GroupedActivity) (acts : List Actor) : GroupedActivity :=
  acts.foldl addActorIfNew g

/-- Total version of the grouping loop, valid when every activity carries an
actor (the only situation in which the loop does not throw). -/
def groupsPure : List (String × GroupedActivity) → List Activity →
    List (String × GroupedActivity)
  | acc, [] => acc
  | acc, a :: l =>
    groupsPure (updateKey (groupKey a) (actorD a)
      (match lookupKey (groupKey a) acc with
       | some _ => acc
       | none => acc ++ [(groupKey a, ⟨a.type, [], a.object, a.id⟩)])) l

/-- The `type`/`object`/`id` seed copied from the first activity of a key. -/
def seedOf (a : Activity) : GroupedActivity := ⟨a.type, [], a.object, a.id⟩

/-- The actors (in input order, duplicates included) of the activities that
map to grouping key `k`. -/
def actorsOfKey (k : String) (l : List Activity) : List Actor :=
  (l.filter (fun a => decide (groupKey a = k))).map actorD

/-- Reference model of the final group for key `k`: seeded from the first
activity with that key and extended with the actor of every activity with
that key. -/
def groupModel (k : String) (l : List Activity) : Option GroupedActivity :=
  ((l.filter (fun a => decide (groupKey a = k))).head?).map
    (fun a => extendA (seedOf a) (actorsOfKey k l))

/-!
## Concrete fixtures used by witnesses and counterexamples
-/

/-- Sample actor Alice. -/
def aliceActor : Actor := ⟨some "a1", some "Alice"⟩

/-- Sample actor Bob. -/
def bobActor : Actor := ⟨some "a2", some "Bob"⟩

/-- Sample actor Carol. -/
def carolActor : Actor := ⟨some "a3", some "Carol"⟩

/-- A post owned by the viewer (id `"v"`). -/
def viewerPost : ApObject :=
  ⟨some "x", none, none, none, some ⟨some "v", some "Viewer"⟩, none⟩

/-- An object that is a reply to the viewer's content. -/
def replyTargetOfViewer : ApObject :=
  ⟨some "oc", none, none, none, none,
    some (InReplyTo.obj ⟨none, none, some ⟨some "v", none⟩⟩)⟩

/-- `Follow(A)` of the spec's concrete scenarios. -/
def followAlice : Activity := ⟨some "1", "Follow", some aliceActor, none⟩

/-- Second follow, by Bob. -/
def followBob : Activity := ⟨some "2", "Follow", some bobActor, none⟩

/-- `Like(X, B)`: Bob likes the viewer's post X. -/
def likeBobOnViewer : Activity := ⟨some "2", "Like", some bobActor, some viewerPost⟩

/-- `Follow(C)`. -/
def followCarol : Activity := ⟨some "3", "Follow", some carolActor, none⟩

/-- A `Create` reply to the viewer whose id is the literal string
`"undefined"`. -/
def createIdLiteral : Activity :=
  ⟨some "undefined", "Create", some ⟨some "a", none⟩, some replyTargetOfViewer⟩

/-- A `Create` reply to the viewer with no id at all. -/
def createNoId : Activity :=
  ⟨none, "Create", some ⟨some "b", none⟩, some replyTargetOfViewer⟩

/-- A `Follow` record with no actor. -/
def followNoActor : Activity := ⟨some "9", "Follow", none, none⟩

/-- The group produced by the two-follow scenario. -/
def groupFollowAB : GroupedActivity :=
  ⟨"Follow", [some aliceActor, some bobActor], none, some "1"⟩


lemma dedupBy_congr {κ α : Type} [DecidableEq κ] (key : α → κ) :
    ∀ (xs : List α) (s t : List κ), (∀ i, i ∈ s ↔ i ∈ t) →
      dedupBy key s xs = dedupBy key t xs := by
  intro xs
  induction xs with
  | nil => intro s t _; rfl
  | cons x xs ih =>
    intro s t hst
    by_cases h : key x ∈ s
    · have h' : key x ∈ t := (hst _).mp h
      simp only [dedupBy, if_pos h, if_pos h']
      exact ih s t hst
    · have h' : key x ∉ t := fun c => h ((hst _).mpr c)
      simp only [dedupBy, if_neg h, if_neg h', List.cons.injEq, true_and]
      exact ih _ _ (by intro i; simp [List.mem_cons, hst i])

lemma dedupBy_keys_notMem {κ α : Type} [DecidableEq κ] (key : α → κ) :
    ∀ (xs : List α) (seen : List κ) (y : α),
      y ∈ dedupBy key seen xs → key y ∉ seen := by
  intro xs
  induction xs with
  | nil => intro seen y hy; simp [dedupBy] at hy
  | cons x xs ih =>
    intro seen y hy
    by_cases h : key x ∈ seen
    · rw [dedupBy, if_pos h] at hy
      exact ih seen y hy
    · rw [dedupBy, if_neg h] at hy
      rcases List.mem_cons.mp hy with rfl | hy'
      · exact h
      · have := ih _ y hy'
        intro hc
        exact this (List.mem_cons_of_mem _ hc)

lemma dedupBy_pairwise {κ α : Type} [DecidableEq κ] (key : α → κ) :
    ∀ (xs : List α) (seen : List κ),
      (dedupBy key seen xs).Pairwise (fun a b => key a ≠ key b) := by
  intro xs
  induction xs with
  | nil => intro seen; simp [dedupBy]
  | cons x xs ih =>
    intro seen
    by_cases h : key x ∈ seen
    · rw [dedupBy, if_pos h]; exact ih seen
    · rw [dedupBy, if_neg h]
      refine List.Pairwise.cons (fun y hy => ?_) (ih _)
      have := dedupBy_keys_notMem key xs _ y hy
      intro hc
      exact this (hc ▸ List.mem_cons_self _ _)

lemma dedupBy_fixed {κ α : Type} [DecidableEq κ] (key : α → κ) :
    ∀ (xs : List α) (seen : List κ), (∀ x ∈ xs, key x ∉ seen) →
      xs.Pairwise (fun a b => key a ≠ key b) → dedupBy key seen xs = xs := by
  intro xs
  induction xs with
  | nil => intro seen _ _; rfl
  | cons x xs ih =>
    intro seen hseen hpw
    have hx : key x ∉ seen := hseen x (List.mem_cons_self _ _)
    rw [dedupBy, if_neg hx]
    rcases List.pairwise_cons.mp hpw with ⟨hhead, htail⟩
    refine congrArg (x :: ·) (ih _ ?_ htail)
    intro y hy
    rw [List.mem_cons]
    rintro (hc | hc)
    · exact hhead y hy hc.symm
    · exact hseen y (List.mem_cons_of_mem _ hy) hc

lemma dedupBy_sublist {κ α : Type} [DecidableEq κ] (key : α → κ) :
    ∀ (xs : List α) (seen : List κ), (dedupBy key seen xs).Sublist xs := by
  intro xs
  induction xs with
  | nil => intro seen; simp [dedupBy]
  | cons x xs ih =>
    intro seen
    by_cases h : key x ∈ seen
    · rw [dedupBy, if_pos h]; exact (ih seen).cons x
    · rw [dedupBy, if_neg h]; exact (ih _).cons₂ x

lemma dedupBy_repr {κ α : Type} [DecidableEq κ] (key : α → κ) :
    ∀ (xs : List α) (seen : List κ) (x : α), x ∈ xs → key x ∉ seen →
      ∃ y ∈ dedupBy key seen xs, key y = key x := by
  intro xs
  induction xs with
  | nil => intro seen x hx; simp at hx
  | cons a xs ih =>
    intro seen x hx hks
    by_cases h : key a ∈ seen
    · rw [dedupBy, if_pos h]
      rcases List.mem_cons.mp hx with rfl | hx'
      · exact absurd h hks
      · exact ih seen x hx' hks
    · rw [dedupBy, if_neg h]
      by_cases hxa : key x = key a
      · exact ⟨a, List.mem_cons_self _ _, hxa.symm⟩
      · rcases List.mem_cons.mp hx with rfl | hx'
        · exact absurd rfl hxa
        · obtain ⟨y, hy, hyk⟩ := ih _ x hx' (by
            rw [List.mem_cons]
            rintro (hc | hc)
            · exact hxa hc
            · exact hks hc)
          exact ⟨y, List.mem_cons_of_mem _ hy, hyk⟩

lemma dedupBy_first {κ α : Type} [DecidableEq κ] (key : α → κ) :
    ∀ (xs : List α) (seen : List κ) (y : α), y ∈ dedupBy key seen xs →
      key y ∉ seen ∧ xs.find? (fun x => decide (key x = key y)) = some y := by
  intro xs
  induction xs with
  | nil => intro seen y hy; simp [dedupBy] at hy
  | cons a xs ih =>
    intro seen y hy
    by_cases h : key a ∈ seen
    · rw [dedupBy, if_pos h] at hy
      obtain ⟨hns, hfind⟩ := ih seen y hy
      refine ⟨hns, ?_⟩
      have hne : ¬ key a = key y := fun hc => hns (hc ▸ h)
      rw [List.find?_cons_of_neg _ (by simpa using hne)]
      exact hfind
    · rw [dedupBy, if_neg h] at hy
      rcases List.mem_cons.mp hy with rfl | hy'
      · exact ⟨h, List.find?_cons_of_pos _ (by simp)⟩
      · obtain ⟨hns, hfind⟩ := ih _ y hy'
        have hnsa : key y ∉ seen := fun hc => hns (List.mem_cons_of_mem _ hc)
        have hne : ¬ key a = key y := by
          intro hc
          exact hns (hc ▸ List.mem_cons_self _ _)
        refine ⟨hnsa, ?_⟩
        rw [List.find?_cons_of_neg _ (by simpa using hne)]
        exact hfind

/-!
## `dedupById` agrees with the first-occurrence model
-/

lemma enumFrom_succ {α : Type _} :
    ∀ (l : List α) (n : Nat),
      List.enumFrom (n + 1) l = (List.enumFrom n l).map (fun p => (p.1 + 1, p.2)) := by
  intro l
  induction l with
  | nil => intro n; rfl
  | cons a l ih =>
    intro n
    show (n + 1, a) :: List.enumFrom (n + 2) l
      = (n + 1, a) :: (List.enumFrom (n + 1) l).map (fun p => (p.1 + 1, p.2))
    rw [ih (n + 1)]

lemma enum_cons {α : Type _} (a : α) (l : List α) :
    (a :: l).enum = (0, a) :: l.enum.map (fun p => (p.1 + 1, p.2)) := by
  show List.enumFrom 0 (a :: l) = _
  have : List.enumFrom 0 (a :: l) = (0, a) :: List.enumFrom 1 l := rfl
  rw [this, enumFrom_succ l 0]
  rfl

lemma dedupById_eq_excl (l : List Activity) : dedupById l = dedupExcl [] l := by
  unfold dedupById dedupExcl
  congr 1

lemma dedupExcl_eq_dedupBy :
    ∀ (l : List Activity) (banned : List (Option String)),
      dedupExcl banned l = dedupBy Activity.id banned l := by
  intro l
  induction l with
  | nil => intro banned; rfl
  | cons a l ih =>
    intro banned
    have htail : ∀ banned' : List (Option String),
        ((l.enum.map (fun p => (p.1 + 1, p.2))).filter
          (fun p => decide (p.2.id ∉ banned) &&
            decide ((a :: l).findIdx (fun b => decide (b.id = p.2.id)) = p.1))).map Prod.snd
        = dedupExcl (a.id :: banned) l := by
      intro _
      rw [List.filter_map, List.map_map]
      unfold dedupExcl
      have hcomp : (Prod.snd ∘ fun p : Nat × Activity => (p.1 + 1, p.2))
          = (Prod.snd : Nat × Activity → Activity) := by
        funext p; rfl
      rw [hcomp]
      congr 1
      apply List.filter_congr
      intro p _
      show (decide (p.2.id ∉ banned) &&
          decide ((a :: l).findIdx (fun b => decide (b.id = p.2.id)) = p.1 + 1))
        = (decide (p.2.id ∉ a.id :: banned) &&
          decide (l.findIdx (fun b => decide (b.id = p.2.id)) = p.1))
      by_cases hb : a.id = p.2.id
      · have h0 : (a :: l).findIdx (fun b => decide (b.id = p.2.id)) = 0 := by
          rw [List.findIdx_cons]
          simp [hb]
        rw [h0]
        have hmem : p.2.id ∈ a.id :: banned := by
          rw [List.mem_cons]; exact Or.inl hb.symm
        simp [hmem]
      · have h1 : (a :: l).findIdx (fun b => decide (b.id = p.2.id))
            = l.findIdx (fun b => decide (b.id = p.2.id)) + 1 := by
          rw [List.findIdx_cons]
          simp [hb]
        rw [h1]
        have hiff : p.2.id ∉ a.id :: banned ↔ p.2.id ∉ banned := by
          rw [List.mem_cons]
          constructor
          · intro h hc; exact h (Or.inr hc)
          · rintro h (hc | hc)
            · exact hb hc.symm
            · exact h hc
        have hnat : (l.findIdx (fun b => decide (b.id = p.2.id)) + 1 = p.1 + 1)
            ↔ (l.findIdx (fun b => decide (b.id = p.2.id)) = p.1) := by omega
        rw [decide_eq_decide.mpr hiff, decide_eq_decide.mpr hnat]
    unfold dedupExcl
    rw [enum_cons, List.filter_cons]
    have hself : (a :: l).findIdx (fun b => decide (b.id = a.id)) = 0 := by
      rw [List.findIdx_cons]; simp
    by_cases hban : a.id ∈ banned
    · have hcond : (decide (a.id ∉ banned) &&
          decide ((a :: l).findIdx (fun b => decide (b.id = a.id)) = 0)) = false := by
        simp [hban]
      rw [if_neg (by rw [hcond]; simp)]
      rw [htail banned, ih (a.id :: banned)]
      rw [dedupBy, if_pos hban]
      exact dedupBy_congr _ l _ _ (by
        intro i
        rw [List.mem_cons]
        constructor
        · rintro (rfl | hc)
          · exact hban
          · exact hc
        · exact Or.inr)
    · have hcond : (decide (a.id ∉ banned) &&
          decide ((a :: l).findIdx (fun b => decide (b.id = a.id)) = 0)) = true := by
        rw [hself]; simp [hban]
      rw [if_pos hcond, List.map_cons, dedupBy, if_neg hban]
      refine congrArg (a :: ·) ?_
      rw [htail banned, ih (a.id :: banned)]

/-- `dedupById` computes exactly the keep-first-occurrence-of-each-id filter. -/
lemma dedupById_eq (l : List Activity) : dedupById l = dedupBy Activity.id [] l := by
  rw [dedupById_eq_excl, dedupExcl_eq_dedupBy]

/-!
## Association-list lemmas for the grouping accumulator
-/

lemma lookupKey_cons (q : String × GroupedActivity) (m : List (String × GroupedActivity))
    (k : String) : lookupKey k (q :: m) = if q.1 = k then some q.2 else lookupKey k m := rfl

lemma lookupKey_updateKey_ne {k k' : String} (act : Actor)
    (m : List (String × GroupedActivity)) (h : ¬ k = k') :
    lookupKey k (updateKey k' act m) = lookupKey k m := by
  induction m with
  | nil => rfl
  | cons p m ih =>
    rw [updateKey, List.map_cons]
    by_cases hp : p.1 = k'
    · rw [if_pos hp]
      have hpk : ¬ p.1 = k := by
        rw [hp]; exact fun c => h c.symm
      rw [lookupKey_cons, lookupKey_cons, if_neg hpk, if_neg hpk]
      exact ih
    · rw [if_neg hp, lookupKey_cons, lookupKey_cons]
      by_cases hpk : p.1 = k
      · rw [if_pos hpk, if_pos hpk]
      · rw [if_neg hpk, if_neg hpk]
        exact ih

lemma lookupKey_updateKey_self (k : String) (act : Actor)
    (m : List (String × GroupedActivity)) :
    lookupKey k (updateKey k act m)
      = (lookupKey k m).map (fun g => addActorIfNew g act) := by
  induction m with
  | nil => rfl
  | cons p m ih =>
    rw [updateKey, List.map_cons]
    by_cases hp : p.1 = k
    · rw [if_pos hp, lookupKey_cons, lookupKey_cons, if_pos hp, if_pos hp]
      rfl
    · rw [if_neg hp, lookupKey_cons, lookupKey_cons, if_neg hp, if_neg hp]
      exact ih

lemma updateKey_fst (k : String) (act : Actor) (m : List (String × GroupedActivity)) :
    (updateKey k act m).map Prod.fst = m.map Prod.fst := by
  induction m with
  | nil => rfl
  | cons p m ih =>
    rw [updateKey, List.map_cons, List.map_cons, List.map_cons]
    by_cases hp : p.1 = k
    · rw [if_pos hp]
      exact congrArg (p.1 :: ·) ih
    · rw [if_neg hp]
      exact congrArg (p.1 :: ·) ih

lemma lookupKey_append_of_some {k : String} {g : GroupedActivity}
    {m : List (String × GroupedActivity)} (l₂ : List (String × GroupedActivity))
    (h : lookupKey k m = some g) : lookupKey k (m ++ l₂) = some g := by
  induction m with
  | nil => exact absurd h (by rw [lookupKey]; exact Option.noConfusion)
  | cons p m ih =>
    rw [List.cons_append, lookupKey_cons]
    rw [lookupKey_cons] at h
    by_cases hp : p.1 = k
    · rw [if_pos hp] at h ⊢
      exact h
    · rw [if_neg hp] at h ⊢
      exact ih h

lemma lookupKey_append_of_none {k : String} {m : List (String × GroupedActivity)}
    (l₂ : List (String × GroupedActivity)) (h : lookupKey k m = none) :
    lookupKey k (m ++ l₂) = lookupKey k l₂ := by
  induction m with
  | nil => rfl
  | cons p m ih =>
    rw [List.cons_append, lookupKey_cons]
    rw [lookupKey_cons] at h
    by_cases hp : p.1 = k
    · rw [if_pos hp] at h
      exact Option.noConfusion h
    · rw [if_neg hp] at h ⊢
      exact ih h

lemma lookupKey_eq_none_iff (k : String) (m : List (String × GroupedActivity)) :
    lookupKey k m = none ↔ k ∉ m.map Prod.fst := by
  induction m with
  | nil => simp [lookupKey]
  | cons p m ih =>
    rw [lookupKey_cons, List.map_cons, List.mem_cons]
    by_cases hp : p.1 = k
    · simp [hp]
    · rw [if_neg hp, ih]
      constructor
      · rintro h (hc | hc)
        · exact hp hc.symm
        · exact h hc
      · intro h hc
        exact h (Or.inr hc)

/-!
## The actor accumulation of a group is first-occurrence de-duplication
-/

lemma map_id_of_forall {β : Type _} :
    ∀ (m : List β) (f : β → β), (∀ p ∈ m, f p = p) → m.map f = m := by
  intro m f
  induction m with
  | nil => intro _; rfl
  | cons p m ih =>
    intro h
    rw [List.map_cons, h p (List.mem_cons_self _ _)]
    exact congrArg (p :: ·) (ih (fun q hq => h q (List.mem_cons_of_mem _ hq)))

lemma map_congr_mem {β γ : Type _} :
    ∀ (m : List β) (f f' : β → γ), (∀ p ∈ m, f p = f' p) → m.map f = m.map f' := by
  intro m f f'
  induction m with
  | nil => intro _; rfl
  | cons p m ih =>
    intro h
    rw [List.map_cons, List.map_cons, h p (List.mem_cons_self _ _)]
    exact congrArg (f' p :: ·) (ih (fun q hq => h q (List.mem_cons_of_mem _ hq)))

lemma extendA_cons (g : GroupedActivity) (x : Actor) (acts : List Actor) :
    extendA g (x :: acts) = extendA (addActorIfNew g x) acts := rfl

lemma addActorIfNew_eq (g : GroupedActivity) (act : Actor) :
    addActorIfNew g act
      = if act.id ∈ g.actors.map (fun x => x.bind Actor.id) then g
        else { g with actors := g.actors ++ [some act] } := by
  unfold addActorIfNew
  by_cases h : act.id ∈ g.actors.map (fun x => x.bind Actor.id)
  · rw [if_pos h, if_pos ?_]
    obtain ⟨x, hx, hxe⟩ := List.mem_map.mp h
    rw [List.find?_isSome]
    exact ⟨x, hx, by simpa using hxe⟩
  · rw [if_neg h, if_neg ?_]
    rw [List.find?_isSome]
    rintro ⟨x, hx, hxe⟩
    exact h (List.mem_map.mpr ⟨x, hx, by simpa using hxe⟩)

lemma extendA_eq_dedupBy :
    ∀ (acts : List Actor) (g : GroupedActivity),
      extendA g acts
        = ⟨g.type,
           g.actors
             ++ (dedupBy Actor.id (g.actors.map (fun x => x.bind Actor.id)) acts).map some,
           g.object, g.id⟩ := by
  intro acts
  induction acts with
  | nil =>
    intro g
    show g = _
    rw [dedupBy, List.map_nil, List.append_nil]
  | cons x acts ih =>
    intro g
    rw [extendA_cons, addActorIfNew_eq]
    by_cases h : x.id ∈ g.actors.map (fun y => y.bind Actor.id)
    · rw [if_pos h, ih g, dedupBy, if_pos h]
    · rw [if_neg h, ih _, dedupBy, if_neg h]
      have hactors : ({ g with actors := g.actors ++ [some x] } : GroupedActivity).actors
          = g.actors ++ [some x] := rfl
      have hmapapp : (g.actors ++ [some x]).map (fun y => y.bind Actor.id)
          = g.actors.map (fun y => y.bind Actor.id) ++ [x.id] := by
        rw [List.map_append]
        rfl
      refine congrArg (fun as => GroupedActivity.mk g.type as g.object g.id) ?_
      rw [hactors, hmapapp, List.map_cons, List.append_assoc]
      refine congrArg (g.actors ++ ·) ?_
      rw [List.cons_append, List.nil_append]
      refine congrArg (some x :: ·) ?_
      refine congrArg (List.map some) ?_
      exact dedupBy_congr _ acts _ _ (by
        intro i
        simp only [List.mem_append, List.mem_singleton, List.mem_cons]
        tauto)

/-!
## The loop agrees with the pure reference model on the actor-present domain
-/

lemma lookupKey_mem {k : String} {g : GroupedActivity} :
    ∀ {m : List (String × GroupedActivity)}, lookupKey k m = some g → (k, g) ∈ m := by
  intro m
  induction m with
  | nil => intro h; exact absurd h (by rw [lookupKey]; exact Option.noConfusion)
  | cons p m ih =>
    obtain ⟨p1, p2⟩ := p
    intro h
    rw [lookupKey_cons] at h
    by_cases hp : p1 = k
    · rw [if_pos hp] at h
      have hg : g = p2 := (Option.some_inj.mp h).symm
      rw [List.mem_cons]
      left
      rw [hg, hp]
    · rw [if_neg hp] at h
      exact List.mem_cons_of_mem _ (ih h)

lemma unique_snd (k : String) (g : GroupedActivity) :
    ∀ (m : List (String × GroupedActivity)), (m.map Prod.fst).Nodup →
      lookupKey k m = some g → ∀ p ∈ m, p.1 = k → p.2 = g := by
  intro m
  induction m with
  | nil => intro _ _ p hp; simp at hp
  | cons q m ih =>
    intro hnd hm p hp hpk
    rw [List.map_cons, List.nodup_cons] at hnd
    rw [lookupKey_cons] at hm
    rcases List.mem_cons.mp hp with rfl | hp'
    · rw [if_pos hpk] at hm
      exact Option.some_inj.mp hm
    · by_cases hq : q.1 = k
      · exfalso
        apply hnd.1
        rw [hq, ← hpk]
        exact List.mem_map.mpr ⟨p, hp', rfl⟩
      · rw [if_neg hq] at hm
        exact ih hnd.2 hm p hp' hpk

lemma updateKey_not_mem (k : String) (act : Actor)
    (m : List (String × GroupedActivity)) (h : k ∉ m.map Prod.fst) :
    updateKey k act m = m := by
  rw [updateKey]
  refine map_id_of_forall _ _ ?_
  intro p hp
  rw [if_neg ?_]
  intro hc
  exact h (hc ▸ List.mem_map.mpr ⟨p, hp, rfl⟩)

lemma pushActor_fst (k : String) (act? : Option Actor)
    (m : List (String × GroupedActivity)) :
    (pushActor k act? m).map Prod.fst = m.map Prod.fst := by
  rw [pushActor, List.map_map]
  refine map_congr_mem _ _ _ ?_
  intro p _
  by_cases hp : p.1 = k
  · show Prod.fst (if p.1 = k then _ else p) = p.1
    rw [if_pos hp]
  · show Prod.fst (if p.1 = k then _ else p) = p.1
    rw [if_neg hp]

lemma findActorJs_present (act : Actor) :
    ∀ (ys : List (Option Actor)), (∀ x ∈ ys, x ≠ none) →
      findActorJs (some act) ys
        = some ((ys.find? (fun x => decide (x.bind Actor.id = act.id))).isSome) := by
  intro ys
  induction ys with
  | nil => intro _; rfl
  | cons y? ys ih =>
    intro h
    cases y? with
    | none => exact absurd rfl (h none (List.mem_cons_self _ _))
    | some y =>
      have hstep : findActorJs (some act) (some y :: ys)
          = if y.id = act.id then some true else findActorJs (some act) ys := rfl
      rw [hstep]
      by_cases hy : y.id = act.id
      · rw [if_pos hy, List.find?_cons_of_pos _ (by simp [hy])]
        rfl
      · rw [if_neg hy, List.find?_cons_of_neg _ (by simp [hy]),
          ih (fun x hx => h x (List.mem_cons_of_mem _ hx))]

lemma groupsAux_eq_pure :
    ∀ (l : List Activity) (acc : List (String × GroupedActivity)),
      (∀ a ∈ l, a.actor ≠ none) →
      (∀ p ∈ acc, ∀ x ∈ p.2.actors, x ≠ none) →
      ((acc.map Prod.fst).Nodup) →
      groupsAux acc l = some (groupsPure acc l) := by
  intro l
  induction l with
  | nil => intro acc _ _ _; rfl
  | cons a l ih =>
    intro acc hact hfree hnd
    obtain ⟨act, ha⟩ : ∃ act, a.actor = some act := by
      cases hc : a.actor with
      | none => exact absurd hc (hact a (List.mem_cons_self _ _))
      | some act => exact ⟨act, rfl⟩
    have hactD : actorD a = act := by rw [actorD, ha]; rfl
    have htail : ∀ b ∈ l, b.actor ≠ none :=
      fun b hb => hact b (List.mem_cons_of_mem _ hb)
    cases hm : lookupKey (groupKey a) acc with
    | none =>
      have hknot : groupKey a ∉ acc.map Prod.fst := (lookupKey_eq_none_iff _ _).mp hm
      have hstep1 : groupsAux acc (a :: l)
          = groupsAux (acc ++ [(groupKey a, ⟨a.type, [some act], a.object, a.id⟩)]) l := by
        rw [groupsAux, hm, ha]
      have hupd : updateKey (groupKey a) act
          (acc ++ [(groupKey a, (⟨a.type, [], a.object, a.id⟩ : GroupedActivity))])
          = acc ++ [(groupKey a, ⟨a.type, [some act], a.object, a.id⟩)] := by
        rw [updateKey, List.map_append]
        have h1 : acc.map (fun p =>
            if p.1 = groupKey a then (p.1, addActorIfNew p.2 act) else p) = acc :=
          updateKey_not_mem _ _ _ hknot
        rw [h1, List.map_cons, if_pos rfl, List.map_nil]
        have h2 : addActorIfNew ⟨a.type, [], a.object, a.id⟩ act
            = (⟨a.type, [some act], a.object, a.id⟩ : GroupedActivity) := rfl
        rw [h2]
      have hstep2 : groupsPure acc (a :: l)
          = groupsPure (acc ++ [(groupKey a, ⟨a.type, [some act], a.object, a.id⟩)]) l := by
        rw [groupsPure, hm, hactD, hupd]
      have hfree2 : ∀ p ∈ acc ++ [(groupKey a,
          (⟨a.type, [some act], a.object, a.id⟩ : GroupedActivity))],
          ∀ x ∈ p.2.actors, x ≠ none := by
        intro p hp x hx
        rcases List.mem_append.mp hp with hp' | hp'
        · exact hfree p hp' x hx
        · rw [List.mem_singleton] at hp'
          rw [hp'] at hx
          have hxs : x = some act := by simpa using hx
          rw [hxs]
          simp
      have hnd2 : (((acc ++ [(groupKey a,
          (⟨a.type, [some act], a.object, a.id⟩ : GroupedActivity))]).map Prod.fst)).Nodup := by
        have hkeys : ((acc ++ [(groupKey a,
            (⟨a.type, [some act], a.object, a.id⟩ : GroupedActivity))]).map Prod.fst)
            = acc.map Prod.fst ++ [groupKey a] := by
          rw [List.map_append]
          rfl
        rw [hkeys, List.nodup_append]
        refine ⟨hnd, List.nodup_singleton _, ?_⟩
        intro x hx hx1
        rw [List.mem_singleton] at hx1
        exact hknot (hx1 ▸ hx)
      rw [hstep1, hstep2]
      exact ih _ htail hfree2 hnd2
    | some g =>
      have hgmem : (groupKey a, g) ∈ acc := lookupKey_mem hm
      have hgfree : ∀ x ∈ g.actors, x ≠ none := by
        intro x hx
        exact hfree _ hgmem x hx
      have hfind := findActorJs_present act g.actors hgfree
      have hstep2 : groupsPure acc (a :: l)
          = groupsPure (updateKey (groupKey a) act acc) l := by
        rw [groupsPure, hm, hactD]
      cases hfound : (g.actors.find? (fun x => decide (x.bind Actor.id = act.id))).isSome with
      | true =>
        have hag : addActorIfNew g act = g := by
          rw [addActorIfNew, if_pos hfound]
        have hstep1 : groupsAux acc (a :: l) = groupsAux acc l := by
          simp only [groupsAux, hm, ha, hfind, hfound]
        have hupd : updateKey (groupKey a) act acc = acc := by
          rw [updateKey]
          refine map_id_of_forall _ _ ?_
          intro p hp
          obtain ⟨p1, p2⟩ := p
          by_cases hpk : p1 = groupKey a
          · have hp2 : p2 = g := unique_snd (groupKey a) g acc hnd hm (p1, p2) hp hpk
            rw [if_pos hpk, hp2, hag]
          · rw [if_neg hpk]
        rw [hstep1, hstep2, hupd]
        exact ih acc htail hfree hnd
      | false =>
        have hag : addActorIfNew g act
            = { g with actors := g.actors ++ [some act] } := by
          rw [addActorIfNew, if_neg (by simp [hfound])]
        have hstep1 : groupsAux acc (a :: l)
            = groupsAux (pushActor (groupKey a) (some act) acc) l := by
          simp only [groupsAux, hm, ha, hfind, hfound]
        have hupd : updateKey (groupKey a) act acc
            = pushActor (groupKey a) (some act) acc := by
          rw [updateKey, pushActor]
          refine map_congr_mem _ _ _ ?_
          intro p hp
          obtain ⟨p1, p2⟩ := p
          by_cases hpk : p1 = groupKey a
          · have hp2 : p2 = g := unique_snd (groupKey a) g acc hnd hm (p1, p2) hp hpk
            rw [if_pos hpk, if_pos hpk, hp2, hag]
          · rw [if_neg hpk, if_neg hpk]
        have hfree2 : ∀ p ∈ pushActor (groupKey a) (some act) acc,
            ∀ x ∈ p.2.actors, x ≠ none := by
          intro p hp x hx
          rw [pushActor] at hp
          obtain ⟨q, hq, hqp⟩ := List.mem_map.mp hp
          by_cases hqk : q.1 = (groupKey a)
          · rw [if_pos hqk] at hqp
            rw [← hqp] at hx
            have hx2 : x ∈ q.2.actors ++ [some act] := hx
            rcases List.mem_append.mp hx2 with hx' | hx'
            · exact hfree q hq x hx'
            · rw [List.mem_singleton] at hx'
              rw [hx']
              simp
          · rw [if_neg hqk] at hqp
            rw [← hqp] at hx
            exact hfree q hq x hx
        have hnd2 : ((pushActor (groupKey a) (some act) acc).map Prod.fst).Nodup := by
          rw [pushActor_fst]
          exact hnd
        rw [hstep1, hstep2, hupd]
        exact ih _ htail hfree2 hnd2

lemma groupsPure_spec :
    ∀ (l : List Activity) (acc : List (String × GroupedActivity)),
      (acc.map Prod.fst).Nodup →
      ((groupsPure acc l).map Prod.fst).Nodup ∧
      (groupsPure acc l).map Prod.fst
        = acc.map Prod.fst
          ++ dedupBy (fun k : String => k) (acc.map Prod.fst) (l.map groupKey) ∧
      (∀ k g, lookupKey k acc = some g →
        lookupKey k (groupsPure acc l) = some (extendA g (actorsOfKey k l))) ∧
      (∀ k, lookupKey k acc = none →
        lookupKey k (groupsPure acc l) = groupModel k l) := by
  intro l
  induction l with
  | nil =>
    intro acc hnd
    refine ⟨?_, ?_, ?_, ?_⟩
    · rw [groupsPure]; exact hnd
    · rw [groupsPure, List.map_nil, dedupBy, List.append_nil]
    · intro k g hkg
      rw [groupsPure]
      have hone : extendA g (actorsOfKey k []) = g := rfl
      rw [hone]
      exact hkg
    · intro k hk
      rw [groupsPure, hk]
      rfl
  | cons a l ih =>
    intro acc hnd
    cases hm : lookupKey (groupKey a) acc with
    | some g₀ =>
      have step : groupsPure acc (a :: l)
          = groupsPure (updateKey (groupKey a) (actorD a) acc) l := by
        rw [groupsPure, hm]
      have hnd2 : ((updateKey (groupKey a) (actorD a) acc).map Prod.fst).Nodup := by
        rw [updateKey_fst]; exact hnd
      obtain ⟨ih1, ih2, ih3, ih4⟩ := ih _ hnd2
      have hkmem : groupKey a ∈ acc.map Prod.fst := by
        by_contra hc
        rw [← lookupKey_eq_none_iff] at hc
        rw [hm] at hc
        exact Option.noConfusion hc
      refine ⟨?_, ?_, ?_, ?_⟩
      · rw [step]; exact ih1
      · rw [step, ih2, updateKey_fst, List.map_cons, dedupBy, if_pos hkmem]
      · intro k g hkg
        rw [step]
        by_cases hkk : k = groupKey a
        · have hkg' : lookupKey (groupKey a) acc = some g := by
            rw [← hkk]; exact hkg
          have hgg : g = g₀ := by
            have hso := hm.symm.trans hkg'
            exact (Option.some_inj.mp hso).symm
          have hup : lookupKey k (updateKey (groupKey a) (actorD a) acc)
              = some (addActorIfNew g₀ (actorD a)) := by
            rw [hkk, lookupKey_updateKey_self, hm]
            rfl
          rw [ih3 k _ hup]
          have hfil : actorsOfKey k (a :: l) = actorD a :: actorsOfKey k l := by
            rw [actorsOfKey, List.filter_cons, if_pos (decide_eq_true hkk.symm),
              List.map_cons]
            rfl
          rw [hfil, hgg, extendA_cons]
        · have hup : lookupKey k (updateKey (groupKey a) (actorD a) acc)
              = some g := by
            rw [lookupKey_updateKey_ne _ _ hkk]
            exact hkg
          rw [ih3 k g hup]
          have hfil : actorsOfKey k (a :: l) = actorsOfKey k l := by
            rw [actorsOfKey, List.filter_cons,
              if_neg (by simp only [decide_eq_true_eq]; exact fun c => hkk c.symm)]
            rfl
          rw [hfil]
      · intro k hk
        have hkk : ¬ k = groupKey a := by
          intro c
          rw [c, hm] at hk
          exact Option.noConfusion hk
        rw [step]
        have hup : lookupKey k (updateKey (groupKey a) (actorD a) acc) = none := by
          rw [lookupKey_updateKey_ne _ _ hkk]
          exact hk
        rw [ih4 k hup]
        rw [groupModel, groupModel, actorsOfKey, actorsOfKey, List.filter_cons,
          if_neg (by simp only [decide_eq_true_eq]; exact fun c => hkk c.symm)]
    | none =>
      have step : groupsPure acc (a :: l)
          = groupsPure (updateKey (groupKey a) (actorD a)
              (acc ++ [(groupKey a, seedOf a)])) l := by
        rw [groupsPure, hm]
        rfl
      have hknot : groupKey a ∉ acc.map Prod.fst :=
        (lookupKey_eq_none_iff _ _).mp hm
      have hkeys1 : (acc ++ [(groupKey a, seedOf a)]).map Prod.fst
          = acc.map Prod.fst ++ [groupKey a] := by
        rw [List.map_append]
        rfl
      have hnd1 : ((acc ++ [(groupKey a, seedOf a)]).map Prod.fst).Nodup := by
        rw [hkeys1, List.nodup_append]
        refine ⟨hnd, List.nodup_singleton _, ?_⟩
        intro x hx hx1
        rw [List.mem_singleton] at hx1
        exact hknot (hx1 ▸ hx)
      have hnd2 : ((updateKey (groupKey a) (actorD a)
          (acc ++ [(groupKey a, seedOf a)])).map Prod.fst).Nodup := by
        rw [updateKey_fst]
        exact hnd1
      obtain ⟨ih1, ih2, ih3, ih4⟩ := ih _ hnd2
      have hkeys2 : (updateKey (groupKey a) (actorD a)
          (acc ++ [(groupKey a, seedOf a)])).map Prod.fst
          = acc.map Prod.fst ++ [groupKey a] := by
        rw [updateKey_fst, hkeys1]
      refine ⟨?_, ?_, ?_, ?_⟩
      · rw [step]; exact ih1
      · rw [step, ih2, hkeys2, List.map_cons, dedupBy, if_neg hknot,
          List.append_assoc, List.cons_append, List.nil_append]
        refine congrArg (acc.map Prod.fst ++ ·) (congrArg (groupKey a :: ·) ?_)
        exact dedupBy_congr _ _ _ _ (by
          intro i
          rw [List.mem_append, List.mem_singleton, List.mem_cons]
          constructor
          · rintro (hc | hc)
            · exact Or.inr hc
            · exact Or.inl hc
          · rintro (hc | hc)
            · exact Or.inr hc
            · exact Or.inl hc)
      · intro k g hkg
        rw [step]
        have hkk : ¬ k = groupKey a := by
          intro c
          rw [c, hm] at hkg
          exact Option.noConfusion hkg
        have hup : lookupKey k (updateKey (groupKey a) (actorD a)
            (acc ++ [(groupKey a, seedOf a)])) = some g := by
          rw [lookupKey_updateKey_ne _ _ hkk]
          exact lookupKey_append_of_some _ hkg
        rw [ih3 k g hup]
        have hfil : actorsOfKey k (a :: l) = actorsOfKey k l := by
          rw [actorsOfKey, List.filter_cons,
            if_neg (by simp only [decide_eq_true_eq]; exact fun c => hkk c.symm)]
          rfl
        rw [hfil]
      · intro k hk
        rw [step]
        by_cases hkk : k = groupKey a
        · have h1 : lookupKey (groupKey a) (acc ++ [(groupKey a, seedOf a)])
              = some (seedOf a) := by
            rw [lookupKey_append_of_none _ hm, lookupKey_cons, if_pos rfl]
          have hup : lookupKey k (updateKey (groupKey a) (actorD a)
              (acc ++ [(groupKey a, seedOf a)]))
              = some (addActorIfNew (seedOf a) (actorD a)) := by
            rw [hkk, lookupKey_updateKey_self, h1]
            rfl
          rw [ih3 k _ hup]
          have hfil : (a :: l).filter (fun b => decide (groupKey b = k))
              = a :: l.filter (fun b => decide (groupKey b = k)) := by
            rw [List.filter_cons, if_pos (decide_eq_true hkk.symm)]
          rw [groupModel, hfil, List.head?_cons, Option.map_some']
          have hact : actorsOfKey k (a :: l) = actorD a :: actorsOfKey k l := by
            rw [actorsOfKey, hfil, List.map_cons]
            rfl
          rw [hact, extendA_cons]
        · have hup : lookupKey k (updateKey (groupKey a) (actorD a)
              (acc ++ [(groupKey a, seedOf a)])) = none := by
            rw [lookupKey_updateKey_ne _ _ hkk,
              lookupKey_append_of_none _ hk, lookupKey_cons,
              if_neg (fun c => hkk c.symm)]
            rfl
          rw [ih4 k hup]
          rw [groupModel, groupModel, actorsOfKey, actorsOfKey, List.filter_cons,
            if_neg (by simp only [decide_eq_true_eq]; exact fun c => hkk c.symm)]

lemma lookupKey_of_mem_nodup :
    ∀ (m : List (String × GroupedActivity)), (m.map Prod.fst).Nodup →
      ∀ p ∈ m, lookupKey p.1 m = some p.2 := by
  intro m
  induction m with
  | nil => intro _ p hp; simp at hp
  | cons q m ih =>
    intro hnd p hp
    rw [List.map_cons, List.nodup_cons] at hnd
    rcases List.mem_cons.mp hp with rfl | hp'
    · rw [lookupKey_cons, if_pos rfl]
    · have hne : ¬ q.1 = p.1 := by
        intro c
        exact hnd.1 (c ▸ List.mem_map.mpr ⟨p, hp', rfl⟩)
      rw [lookupKey_cons, if_neg hne]
      exact ih hnd.2 p hp'

/-- Summary of the grouping loop on a well-formed input: the result exists,
its keys are the distinct grouping keys in first-seen order, and each entry
is the model group of its key. -/
lemma groupActivities_spec (l : List Activity) (h : ∀ a ∈ l, a.actor ≠ none) :
    ∃ m, groupsAux [] l = some m ∧
      groupActivities l = some (m.map Prod.snd) ∧
      (m.map Prod.fst).Nodup ∧
      m.map Prod.fst = dedupBy (fun k : String => k) [] (l.map groupKey) ∧
      (∀ p ∈ m, groupModel p.1 l = some p.2) := by
  obtain ⟨h1, h2, _, h4⟩ := groupsPure_spec l [] (by simp)
  have haux : groupsAux [] l = some (groupsPure [] l) :=
    groupsAux_eq_pure l [] h (by intro p hp; simp at hp) (by simp)
  refine ⟨groupsPure [] l, haux, ?_, h1, ?_, ?_⟩
  · rw [groupActivities, haux]
    rfl
  · rw [h2]
    rfl
  · intro p hp
    have hlook := lookupKey_of_mem_nodup _ h1 p hp
    have hmod := h4 p.1 rfl
    rw [hlook] at hmod
    exact hmod.symm

/-- Unfolded form of a model group: its `type`, `object` and `id` are copied
from the first activity of the key and its actors are the first-occurrence
de-duplication (by actor id) of the actors of the key's activities. -/
lemma groupModel_unfold {k : String} {l : List Activity} {g : GroupedActivity}
    (h : groupModel k l = some g) :
    ∃ a rest, l.filter (fun b => decide (groupKey b = k)) = a :: rest ∧
      g = ⟨a.type, (dedupBy Actor.id [] ((a :: rest).map actorD)).map some,
           a.object, a.id⟩ := by
  rw [groupModel] at h
  cases hfil : l.filter (fun b => decide (groupKey b = k)) with
  | nil =>
    rw [hfil] at h
    exact Option.noConfusion h
  | cons a rest =>
    rw [hfil, List.head?_cons, Option.map_some'] at h
    refine ⟨a, rest, rfl, ?_⟩
    have hg := (Option.some_inj.mp h).symm
    rw [hg, actorsOfKey, hfil, extendA_eq_dedupBy]
    rw [seedOf]
    rfl

/-!
## Characterization of the content filters
-/

lemma keepNotOwnLike_iff (v : Option String) (a : Activity) :
    keepNotOwnLike v a = true ↔ ¬ (a.type = "Like" ∧ actorId a = v) := by
  by_cases h : a.type = "Like" ∧ actorId a = v <;> simp [keepNotOwnLike, h]

lemma keepLikeOnOwn_iff (v : Option String) (a : Activity) :
    keepLikeOnOwn v a = true ↔ ¬ (a.type = "Like" ∧ ¬ attrId a = v) := by
  by_cases h : a.type = "Like" ∧ ¬ attrId a = v <;> simp [keepLikeOnOwn, h]

lemma keepAnnounceOnOwn_iff (v : Option String) (a : Activity) :
    keepAnnounceOnOwn v a = true ↔ ¬ (a.type = "Announce" ∧ ¬ attrId a = v) := by
  by_cases h : a.type = "Announce" ∧ ¬ attrId a = v <;> simp [keepAnnounceOnOwn, h]

lemma keepCreateReplyToOwn_iff (v : Option String) (a : Activity) :
    keepCreateReplyToOwn v a = true ↔ ¬ (a.type = "Create" ∧ ¬ replyAttrId a = v) := by
  by_cases h : a.type = "Create" ∧ ¬ replyAttrId a = v <;>
    simp [keepCreateReplyToOwn, h]

lemma keepNotOwnCreate_iff (v : Option String) (a : Activity) :
    keepNotOwnCreate v a = true ↔ ¬ (a.type = "Create" ∧ actorId a = v) := by
  by_cases h : a.type = "Create" ∧ actorId a = v <;> simp [keepNotOwnCreate, h]

lemma mem_contentFilter (v : Option String) (l : List Activity) (a : Activity) :
    a ∈ contentFilter v l ↔ a ∈ l ∧ keepNotOwnLike v a = true ∧
      keepLikeOnOwn v a = true ∧ keepAnnounceOnOwn v a = true ∧
      keepCreateReplyToOwn v a = true ∧ keepNotOwnCreate v a = true := by
  unfold contentFilter
  simp only [List.mem_filter]
  tauto

/-- Claim C5: after de-duplication, a `Like` activity survives the content
filters iff its actor is not the viewer and its object is attributed to the
viewer; an `Announce` survives iff its object is attributed to the viewer;
and a `Follow` is removed by none of the content filters. -/
theorem c5_like_announce_follow_filters (v : String) (l : List Activity)
    (a : Activity) :
    (a.type = "Like" →
      (a ∈ contentFilter (some v) l ↔
        a ∈ l ∧ ¬ actorId a = some v ∧ attrId a = some v)) ∧
    (a.type = "Announce" →
      (a ∈ contentFilter (some v) l ↔ a ∈ l ∧ attrId a = some v)) ∧
    (a.type = "Follow" →
      (a ∈ contentFilter (some v) l ↔ a ∈ l)) := by
  refine ⟨?_, ?_, ?_⟩ <;> intro ht <;>
    rw [mem_contentFilter] <;>
    simp [keepNotOwnLike_iff, keepLikeOnOwn_iff, keepAnnounceOnOwn_iff,
      keepCreateReplyToOwn_iff, keepNotOwnCreate_iff, ht, not_not]

/-- Witness for C5: a follower's like on the viewer's own post is kept. -/
theorem c5_witness :
    (⟨some "2", "Like", some ⟨some "a2", some "Bob"⟩,
        some ⟨some "x", none, none, none, some ⟨some "v", some "Viewer"⟩, none⟩⟩ : Activity) ∈
      contentFilter (some "v")
        [⟨some "2", "Like", some ⟨some "a2", some "Bob"⟩,
          some ⟨some "x", none, none, none, some ⟨some "v", some "Viewer"⟩, none⟩⟩] :=
  ((c5_like_announce_follow_filters "v" _ _).1 rfl).mpr
    ⟨by decide, by decide, by decide⟩

/-- Claim C6: a `Create` activity survives the content filters iff it is a
reply to the viewer's own content and not authored by the viewer; a `Create`
whose `inReplyTo` chain is missing is a non-match and is excluded without
error. -/
theorem c6_create_filter (v : String) (l : List Activity) (a : Activity) :
    (a.type = "Create" →
      (a ∈ contentFilter (some v) l ↔
        a ∈ l ∧ replyAttrId a = some v ∧ ¬ actorId a = some v)) ∧
    (a.type = "Create" → replyAttrId a = none →
      a ∉ contentFilter (some v) l) := by
  have hmain : a.type = "Create" →
      (a ∈ contentFilter (some v) l ↔
        a ∈ l ∧ replyAttrId a = some v ∧ ¬ actorId a = some v) := by
    intro ht
    rw [mem_contentFilter]
    simp [keepNotOwnLike_iff, keepLikeOnOwn_iff, keepAnnounceOnOwn_iff,
      keepCreateReplyToOwn_iff, keepNotOwnCreate_iff, ht, not_not]
  refine ⟨hmain, ?_⟩
  intro ht hnone hc
  have := ((hmain ht).mp hc).2.1
  rw [hnone] at this
  exact Option.noConfusion this

/-- Witness for C6: a `Create` with no `inReplyTo` at all is filtered out. -/
theorem c6_witness :
    (⟨some "7", "Create", some ⟨some "a1", some "Alice"⟩, none⟩ : Activity) ∉
      contentFilter (some "v")
        [⟨some "7", "Create", some ⟨some "a1", some "Alice"⟩, none⟩] :=
  (c6_create_filter "v" _ _).2 rfl rfl

/-!
## Claim C4: de-duplication keeps exactly the first occurrence of each id
-/

/-- Claim C4: the de-duplication filter keeps an activity iff it is the first
occurrence of its `id` in the page: the result is a subsequence of the page,
its ids are pairwise distinct, every input id is represented, every kept
record is the first record of the page bearing its id, and the step is
idempotent. -/
theorem c4_dedup_first_occurrence (l : List Activity) :
    dedupById (dedupById l) = dedupById l ∧
    (dedupById l).Sublist l ∧
    (dedupById l).Pairwise (fun a b => ¬ a.id = b.id) ∧
    (∀ a ∈ l, ∃ b ∈ dedupById l, b.id = a.id) ∧
    (∀ b ∈ dedupById l, l.find? (fun x => decide (x.id = b.id)) = some b) := by
  refine ⟨?_, ?_, ?_, ?_, ?_⟩
  · rw [dedupById_eq, dedupById_eq]
    refine dedupBy_fixed _ _ _ (by simp) ?_
    exact dedupBy_pairwise _ l []
  · rw [dedupById_eq]
    exact dedupBy_sublist _ l []
  · rw [dedupById_eq]
    exact dedupBy_pairwise _ l []
  · intro a ha
    rw [dedupById_eq]
    exact dedupBy_repr _ l [] a ha (by simp)
  · intro b hb
    rw [dedupById_eq] at hb
    exact (dedupBy_first _ l [] b hb).2

/-- Witness for C4: on a page with a repeated id, only the first occurrence
remains and it is the `find?`-first record of that id. -/
theorem c4_witness :
    (∃ b ∈ dedupById
        [⟨some "1", "Follow", some ⟨some "a1", some "Alice"⟩, none⟩,
         ⟨some "1", "Follow", some ⟨some "a2", some "Bob"⟩, none⟩],
      b.id = (⟨some "1", "Follow", some ⟨some "a2", some "Bob"⟩, none⟩ : Activity).id) ∧
    dedupById
        [⟨some "1", "Follow", some ⟨some "a1", some "Alice"⟩, none⟩,
         ⟨some "1", "Follow", some ⟨some "a2", some "Bob"⟩, none⟩]
      = [⟨some "1", "Follow", some ⟨some "a1", some "Alice"⟩, none⟩] :=
  ⟨(c4_dedup_first_occurrence
      [⟨some "1", "Follow", some ⟨some "a1", some "Alice"⟩, none⟩,
       ⟨some "1", "Follow", some ⟨some "a2", some "Bob"⟩, none⟩]).2.2.2.1
    _ (by decide), by decide⟩

/-!
## Claims C2 and C3: group contents and group order
-/

/-- Claim C2: on input whose activities all carry an actor (a missing actor
can make the loop's find callback throw, see C9), every emitted group copies `type`, `object` and `id` from the
first activity bearing its key, its actors are the distinct actors
(de-duplicated by actor id) of the key's activities in first-occurrence
order, the number of groups equals the number of distinct keys, and every
group has at least one actor. -/
theorem c2_group_contents (l : List Activity) (h : ∀ a ∈ l, a.actor ≠ none) :
    ∃ gs, groupActivities l = some gs ∧
      gs.length = (dedupBy (fun k : String => k) [] (l.map groupKey)).length ∧
      (∀ g ∈ gs, ∃ k a rest,
        l.filter (fun b => decide (groupKey b = k)) = a :: rest ∧
        g.type = a.type ∧ g.object = a.object ∧ g.id = a.id ∧
        g.actors = (dedupBy Actor.id [] ((a :: rest).map actorD)).map some) ∧
      (∀ g ∈ gs, g.actors ≠ []) := by
  obtain ⟨m, _, hact, hnd, hkeys, hmod⟩ := groupActivities_spec l h
  have hcontents : ∀ g ∈ m.map Prod.snd, ∃ k a rest,
      l.filter (fun b => decide (groupKey b = k)) = a :: rest ∧
      g.type = a.type ∧ g.object = a.object ∧ g.id = a.id ∧
      g.actors = (dedupBy Actor.id [] ((a :: rest).map actorD)).map some := by
    intro g hg
    obtain ⟨p, hp, hpg⟩ := List.mem_map.mp hg
    obtain ⟨a, rest, hfil, hgdef⟩ := groupModel_unfold (hmod p hp)
    rw [← hpg, hgdef]
    exact ⟨p.1, a, rest, hfil, rfl, rfl, rfl, rfl⟩
  refine ⟨m.map Prod.snd, hact, ?_, hcontents, ?_⟩
  · rw [List.length_map, ← hkeys, List.length_map]
  · intro g hg
    obtain ⟨k, a, rest, _, _, _, _, hactors⟩ := hcontents g hg
    rw [hactors, List.map_cons, dedupBy, if_neg (by simp), List.map_cons]
    exact List.cons_ne_nil _ _

/-- Witness for C2: the three-activity page `[Follow, Like, Follow]` yields
groups satisfying all the group-content properties. -/
theorem c2_witness :
    ∃ gs, groupActivities
        [⟨some "1", "Follow", some ⟨some "a1", some "Alice"⟩, none⟩,
         ⟨some "2", "Like", some ⟨some "a2", some "Bob"⟩,
           some ⟨some "x", none, none, none, some ⟨some "v", some "Viewer"⟩, none⟩⟩,
         ⟨some "3", "Follow", some ⟨some "a3", some "Carol"⟩, none⟩] = some gs ∧
      gs.length = (dedupBy (fun k : String => k) []
        (([⟨some "1", "Follow", some ⟨some "a1", some "Alice"⟩, none⟩,
           ⟨some "2", "Like", some ⟨some "a2", some "Bob"⟩,
             some ⟨some "x", none, none, none, some ⟨some "v", some "Viewer"⟩, none⟩⟩,
           ⟨some "3", "Follow", some ⟨some "a3", some "Carol"⟩, none⟩] :
          List Activity).map groupKey)).length ∧
      (∀ g ∈ gs, ∃ k a rest,
        ([⟨some "1", "Follow", some ⟨some "a1", some "Alice"⟩, none⟩,
          ⟨some "2", "Like", some ⟨some "a2", some "Bob"⟩,
            some ⟨some "x", none, none, none, some ⟨some "v", some "Viewer"⟩, none⟩⟩,
          ⟨some "3", "Follow", some ⟨some "a3", some "Carol"⟩, none⟩] :
          List Activity).filter (fun b => decide (groupKey b = k)) = a :: rest ∧
        g.type = a.type ∧ g.object = a.object ∧ g.id = a.id ∧
        g.actors = (dedupBy Actor.id [] ((a :: rest).map actorD)).map some) ∧
      (∀ g ∈ gs, g.actors ≠ []) :=
  c2_group_contents _ (by decide)

/-- Claim C3: groups are emitted exactly in the order in which their grouping
keys first occur in the input: the association list built by the loop exists,
`groupActivities` returns its values in that order, and its key list is the
first-occurrence de-duplication of the activities' key sequence (no
re-sorting after accumulation). -/
theorem c3_group_order (l : List Activity) (h : ∀ a ∈ l, a.actor ≠ none) :
    ∃ m, groupsAux [] l = some m ∧
      groupActivities l = some (m.map Prod.snd) ∧
      m.map Prod.fst = dedupBy (fun k : String => k) [] (l.map groupKey) ∧
      (∀ p ∈ m, groupModel p.1 l = some p.2) := by
  obtain ⟨m, h1, h2, _, h4, h5⟩ := groupActivities_spec l h
  exact ⟨m, h1, h2, h4, h5⟩

/-- Witness for C3: on the `[Follow, Like, Follow]` page the key order is
`[follow, like]`, the first-seen order. -/
theorem c3_witness :
    ∃ m, groupsAux []
        [⟨some "1", "Follow", some ⟨some "a1", some "Alice"⟩, none⟩,
         ⟨some "2", "Like", some ⟨some "a2", some "Bob"⟩,
           some ⟨some "x", none, none, none, some ⟨some "v", some "Viewer"⟩, none⟩⟩,
         ⟨some "3", "Follow", some ⟨some "a3", some "Carol"⟩, none⟩] = some m ∧
      groupActivities
        [⟨some "1", "Follow", some ⟨some "a1", some "Alice"⟩, none⟩,
         ⟨some "2", "Like", some ⟨some "a2", some "Bob"⟩,
           some ⟨some "x", none, none, none, some ⟨some "v", some "Viewer"⟩, none⟩⟩,
         ⟨some "3", "Follow", some ⟨some "a3", some "Carol"⟩, none⟩]
        = some (m.map Prod.snd) ∧
      m.map Prod.fst = dedupBy (fun k : String => k) []
        (([⟨some "1", "Follow", some ⟨some "a1", some "Alice"⟩, none⟩,
           ⟨some "2", "Like", some ⟨some "a2", some "Bob"⟩,
             some ⟨some "x", none, none, none, some ⟨some "v", some "Viewer"⟩, none⟩⟩,
           ⟨some "3", "Follow", some ⟨some "a3", some "Carol"⟩, none⟩] :
          List Activity).map groupKey) ∧
      (∀ p ∈ m, groupModel p.1
        [⟨some "1", "Follow", some ⟨some "a1", some "Alice"⟩, none⟩,
         ⟨some "2", "Like", some ⟨some "a2", some "Bob"⟩,
           some ⟨some "x", none, none, none, some ⟨some "v", some "Viewer"⟩, none⟩⟩,
         ⟨some "3", "Follow", some ⟨some "a3", some "Carol"⟩, none⟩] = some p.2) :=
  c3_group_order _ (by decide)

/-!
## Claim C7: reply excerpt
-/

lemma truncate_length_le (s : String) (n : Nat) : (truncate s n).length ≤ n := by
  have hlen : (truncate s n).length = (s.data.take n).length := rfl
  rw [hlen, List.length_take]
  exact min_le_left _ _

/-- Claim C7: the reply excerpt of a `Create` group is rendered iff
`object.inReplyTo` is a full object (not a bare string reference); it equals
the markup-stripped `inReplyTo.name` when that is present and nonempty,
otherwise the markup-stripped `inReplyTo.content`, truncated to 80
characters; every rendered excerpt has length at most 80. -/
theorem c7_reply_excerpt (g : GroupedActivity) :
    ((∃ s, replyExcerpt g = some s) ↔
      (∃ o r, g.object = some o ∧ o.inReplyTo = some (InReplyTo.obj r))) ∧
    (∀ o r, g.object = some o → o.inReplyTo = some (InReplyTo.obj r) →
      replyExcerpt g = some (truncate
        (match r.name with
         | some n => if n = "" then stripHtml (r.content.getD "") else stripHtml n
         | none => stripHtml (r.content.getD "")) 80)) ∧
    (∀ s, replyExcerpt g = some s → s.length ≤ 80) := by
  cases hro : g.object.bind ApObject.inReplyTo with
  | none =>
    have hre : replyExcerpt g = none := by rw [replyExcerpt, hro]
    refine ⟨⟨?_, ?_⟩, ?_, ?_⟩
    · rintro ⟨s, hs⟩
      rw [hre] at hs
      exact Option.noConfusion hs
    · rintro ⟨o, r, ho, hr⟩
      have hx : (some o).bind ApObject.inReplyTo = o.inReplyTo := rfl
      rw [ho, hx, hr] at hro
      exact Option.noConfusion hro
    · intro o r ho hr
      have hx : (some o).bind ApObject.inReplyTo = o.inReplyTo := rfl
      rw [ho, hx, hr] at hro
      exact Option.noConfusion hro
    · intro s hs
      rw [hre] at hs
      exact Option.noConfusion hs
  | some iro =>
    cases iro with
    | ref u =>
      have hre : replyExcerpt g = none := by rw [replyExcerpt, hro]
      refine ⟨⟨?_, ?_⟩, ?_, ?_⟩
      · rintro ⟨s, hs⟩
        rw [hre] at hs
        exact Option.noConfusion hs
      · rintro ⟨o, r, ho, hr⟩
        have hx : (some o).bind ApObject.inReplyTo = o.inReplyTo := rfl
        rw [ho, hx, hr] at hro
        exact InReplyTo.noConfusion (Option.some_inj.mp hro)
      · intro o r ho hr
        have hx : (some o).bind ApObject.inReplyTo = o.inReplyTo := rfl
        rw [ho, hx, hr] at hro
        exact InReplyTo.noConfusion (Option.some_inj.mp hro)
      · intro s hs
        rw [hre] at hs
        exact Option.noConfusion hs
    | obj r₀ =>
      have hre : replyExcerpt g = some (truncate
          (match r₀.name with
           | some n => if n = "" then stripHtml (r₀.content.getD "") else stripHtml n
           | none => stripHtml (r₀.content.getD "")) 80) := by
        rw [replyExcerpt, hro]
      refine ⟨⟨?_, ?_⟩, ?_, ?_⟩
      · intro _
        obtain ⟨o, ho, hobj⟩ := Option.bind_eq_some.mp hro
        exact ⟨o, r₀, ho, hobj⟩
      · intro _
        exact ⟨_, hre⟩
      · intro o r ho hr
        have hx : (some o).bind ApObject.inReplyTo = o.inReplyTo := rfl
        rw [ho, hx, hr] at hro
        have hrr : r = r₀ := InReplyTo.obj.inj (Option.some_inj.mp hro.symm).symm
        rw [hrr]
        exact hre
      · intro s hs
        rw [hre] at hs
        have hss := (Option.some_inj.mp hs).symm
        rw [hss]
        exact truncate_length_le _ _

/-- Witness for C7: a reply whose `inReplyTo.content` is 200 characters long
yields an excerpt of at most 80 characters. -/
theorem c7_witness :
    ∃ s, replyExcerpt ⟨"Create", [some ⟨some "a1", some "Alice"⟩],
        some ⟨some "o", none, none, none, none,
          some (InReplyTo.obj ⟨none, some (String.mk (List.replicate 200 'a')), none⟩)⟩,
        some "c"⟩ = some s ∧ s.length ≤ 80 := by
  have h : replyExcerpt ⟨"Create", [some ⟨some "a1", some "Alice"⟩],
      some ⟨some "o", none, none, none, none,
        some (InReplyTo.obj ⟨none, some (String.mk (List.replicate 200 'a')), none⟩)⟩,
      some "c"⟩
      = some (truncate (stripHtml (String.mk (List.replicate 200 'a'))) 80) := rfl
  exact ⟨_, h, (c7_reply_excerpt ⟨"Create", [some ⟨some "a1", some "Alice"⟩],
    some ⟨some "o", none, none, none, none,
      some (InReplyTo.obj ⟨none, some (String.mk (List.replicate 200 'a')), none⟩)⟩,
    some "c"⟩).2.2 _ h⟩

/-!
## Claim C1: key assignment and collapsing
-/

/-- Claim C1 (amended): the grouping key is determined solely by the
activity's type and ids — `Follow` gets the single constant key, a
`Like`/`Announce` with a truthy (present, nonempty) `object.id` is keyed by
that object id separately per type, a `Like`/`Announce` without one gets the
shared empty key, and a `Create` is keyed by the JavaScript string rendering
of its own `id` (a missing id renders as `"undefined"`), so two Creates share
a group exactly when their rendered keys coincide.  The concrete scenario
`[Follow(A), Like(X,B), Follow(C)]` yields `[Follow{A,C}, Like{B}]`. -/
theorem c1_grouping_keys :
    (∀ a : Activity, a.type = "Follow" → groupKey a = "follow_Follow") ∧
    (∀ a : Activity, ∀ oid, a.type = "Like" → objectId a = some oid →
      ¬ oid = "" → groupKey a = "like_" ++ oid) ∧
    (∀ a : Activity, ∀ oid, a.type = "Announce" → objectId a = some oid →
      ¬ oid = "" → groupKey a = "announce_" ++ oid) ∧
    (∀ a : Activity, (a.type = "Like" ∨ a.type = "Announce") →
      (objectId a = none ∨ objectId a = some "") → groupKey a = "") ∧
    (∀ a : Activity, a.type = "Create" →
      groupKey a = "create_" ++ a.id.getD "undefined") ∧
    (filterPage (some "v") [followAlice, likeBobOnViewer, followCarol]
        = [followAlice, likeBobOnViewer, followCarol] ∧
      groupActivities [followAlice, likeBobOnViewer, followCarol]
        = some [⟨"Follow", [some aliceActor, some carolActor], none, some "1"⟩,
                ⟨"Like", [some bobActor], some viewerPost, some "2"⟩]) := by
  refine ⟨?_, ?_, ?_, ?_, ?_, by decide, by decide⟩
  · intro a h
    rw [groupKey, if_pos h, h]
    decide
  · intro a oid h ho hne
    have h1 : ¬ a.type = "Follow" := by rw [h]; decide
    rw [groupKey, if_neg h1, if_pos h, ho]
    show (if oid = "" then "" else "like_" ++ oid) = "like_" ++ oid
    rw [if_neg hne]
  · intro a oid h ho hne
    have h1 : ¬ a.type = "Follow" := by rw [h]; decide
    have h2 : ¬ a.type = "Like" := by rw [h]; decide
    rw [groupKey, if_neg h1, if_neg h2, if_pos h, ho]
    show (if oid = "" then "" else "announce_" ++ oid) = "announce_" ++ oid
    rw [if_neg hne]
  · intro a hty ho
    rcases hty with h | h
    · have h1 : ¬ a.type = "Follow" := by rw [h]; decide
      rcases ho with ho | ho
      · rw [groupKey, if_neg h1, if_pos h, ho]
      · rw [groupKey, if_neg h1, if_pos h, ho]
        show (if ("" : String) = "" then "" else "like_" ++ "") = ""
        rw [if_pos rfl]
    · have h1 : ¬ a.type = "Follow" := by rw [h]; decide
      have h2 : ¬ a.type = "Like" := by rw [h]; decide
      rcases ho with ho | ho
      · rw [groupKey, if_neg h1, if_neg h2, if_pos h, ho]
      · rw [groupKey, if_neg h1, if_neg h2, if_pos h, ho]
        show (if ("" : String) = "" then "" else "announce_" ++ "") = ""
        rw [if_pos rfl]
  · intro a h
    have h1 : ¬ a.type = "Follow" := by rw [h]; decide
    have h2 : ¬ a.type = "Like" := by rw [h]; decide
    have h3 : ¬ a.type = "Announce" := by rw [h]; decide
    rw [groupKey, if_neg h1, if_neg h2, if_neg h3, if_pos h]

/-- Counterexample to C1 as stated: two `Create` activities — one with the
literal id `"undefined"`, one with no id — survive the whole filter chain
(so they form a legitimate filtered input) yet end up in one shared group,
contradicting "a Create is never grouped with other activities". -/
theorem c1_counterexample :
    filterPage (some "v") [createIdLiteral, createNoId]
      = [createIdLiteral, createNoId] ∧
    groupActivities [createIdLiteral, createNoId]
      = some [⟨"Create", [some ⟨some "a", none⟩, some ⟨some "b", none⟩],
          some replyTargetOfViewer, some "undefined"⟩] := by
  exact ⟨by decide, by decide⟩

/-- Witness for C1: the key clauses evaluated at concrete activities. -/
theorem c1_witness :
    groupKey followAlice = "follow_Follow" ∧
    groupKey likeBobOnViewer = "like_" ++ "x" ∧
    groupKey (⟨some "9", "Announce", some aliceActor, none⟩ : Activity) = "" ∧
    groupKey createNoId = "create_" ++ (createNoId.id).getD "undefined" :=
  ⟨c1_grouping_keys.1 _ rfl,
   c1_grouping_keys.2.1 likeBobOnViewer "x" rfl rfl (by decide),
   c1_grouping_keys.2.2.2.1 _ (Or.inr rfl) (Or.inl rfl),
   c1_grouping_keys.2.2.2.2.1 _ rfl⟩

/-!
## Claim C8: badges and actor phrasing
-/

/-- Claim C8 (amended): the badge of a group is determined by its type
(`Follow ↦ follow`, `Like ↦ like`, `Announce ↦ repost`, `Create ↦ reply`);
the actor list is phrased as the first actor's name, a second actor joined
by `" and "` (or `", "` when more follow), with `" and others"` appended for
more than two; and the two-follow scenario by Alice and Bob renders the
description "Alice and Bob started following you" (with no trailing
period). -/
theorem c8_badges_and_phrasing :
    (∀ g : GroupedActivity, g.type = "Follow" → getActivityBadge g = some "follow") ∧
    (∀ g : GroupedActivity, g.type = "Like" → getActivityBadge g = some "like") ∧
    (∀ g : GroupedActivity, g.type = "Announce" → getActivityBadge g = some "repost") ∧
    (∀ g : GroupedActivity, g.type = "Create" → getActivityBadge g = some "reply") ∧
    (∀ a : Actor, actorText [some a] = some (a.name.getD "")) ∧
    (∀ a b : Actor, actorText [some a, some b]
      = some (a.name.getD "" ++ " and " ++ b.name.getD "")) ∧
    (∀ (a b c : Actor) (rest : List (Option Actor)),
      actorText (some a :: some b :: some c :: rest)
      = some (a.name.getD "" ++ ", " ++ b.name.getD "" ++ " and others")) ∧
    (processPage (some "me") [followAlice, followBob] = some [groupFollowAB] ∧
      describeGroup groupFollowAB = some "Alice and Bob started following you") := by
  refine ⟨?_, ?_, ?_, ?_, fun a => rfl, fun a b => rfl, fun a b c rest => rfl,
    by decide, by decide⟩
  · intro g h
    have h1 : ¬ g.type = "Create" := by rw [h]; decide
    rw [getActivityBadge, if_neg h1, if_pos h]
  · intro g h
    have h1 : ¬ g.type = "Create" := by rw [h]; decide
    have h2 : ¬ g.type = "Follow" := by rw [h]; decide
    rw [getActivityBadge, if_neg h1, if_neg h2, if_pos h]
  · intro g h
    have h1 : ¬ g.type = "Create" := by rw [h]; decide
    have h2 : ¬ g.type = "Follow" := by rw [h]; decide
    have h3 : ¬ g.type = "Like" := by rw [h]; decide
    rw [getActivityBadge, if_neg h1, if_neg h2, if_neg h3, if_pos h]
  · intro g h
    rw [getActivityBadge, if_pos h]

/-- Counterexample to C8 as stated: the rendered Follow description carries
no trailing period, while the claim's quoted description ends in one. -/
theorem c8_counterexample :
    processPage (some "me") [followAlice, followBob] = some [groupFollowAB] ∧
    describeGroup groupFollowAB = some "Alice and Bob started following you" ∧
    ¬ describeGroup groupFollowAB = some "Alice and Bob started following you." := by
  exact ⟨by decide, by decide, by decide⟩

/-- Witness for C8: badge and phrasing clauses evaluated concretely. -/
theorem c8_witness :
    getActivityBadge groupFollowAB = some "follow" ∧
    actorText [some aliceActor, some bobActor]
      = some (aliceActor.name.getD "" ++ " and " ++ bobActor.name.getD "") :=
  ⟨c8_badges_and_phrasing.1 groupFollowAB rfl,
   c8_badges_and_phrasing.2.2.2.2.2.1 aliceActor bobActor⟩

/-!
## Claim C9: graceful degradation
-/

/-- Claim C9 (amended): on any page whose records all carry an `actor` —
however malformed the other fields (`object`, `attributedTo`, `inReplyTo`,
`id` may all be missing) — the filter-and-group computation completes
without failure.  A record with a missing `actor` is removed by no filter
and does not fail on its own either: when its group is freshly seeded, the
`find` of line 99 runs over the empty actors array, never invokes its
callback, and the `undefined` actor is pushed (second conjunct).  The
computation fails only when that callback actually runs with a missing
actor involved — see `c9_counterexample`. -/
theorem c9_no_failure_when_actors_present :
    (∀ (v : Option String) (page : List Activity),
      (∀ a ∈ page, a.actor ≠ none) → ∃ gs, processPage v page = some gs) ∧
    processPage (some "me") [followNoActor]
      = some [⟨"Follow", [none], none, some "9"⟩] := by
  refine ⟨?_, by decide⟩
  intro v page h
  have hsub : ∀ a ∈ filterPage v page, a.actor ≠ none := by
    intro a ha
    apply h
    have h1 : a ∈ dedupById page := ((mem_contentFilter v _ a).mp ha).1
    rw [dedupById_eq] at h1
    exact (dedupBy_sublist _ page []).subset h1
  rw [processPage, groupActivities,
    groupsAux_eq_pure _ [] hsub (by intro p hp; simp at hp) (by simp)]
  exact ⟨_, rfl⟩

/-- Counterexample to C9 as stated: the page `[Follow(Alice), Follow(no
actor)]` — both records survive every filter — makes the grouping loop
throw: the second follow finds a non-empty actors array `[Alice]`, so the
find callback of line 99 runs and dereferences `activity.actor.id` on a
missing actor.  The filter-and-group computation therefore does not complete
for every malformed page. -/
theorem c9_counterexample :
    filterPage (some "me") [followAlice, followNoActor]
      = [followAlice, followNoActor] ∧
    processPage (some "me") [followAlice, followNoActor] = none := by
  exact ⟨by decide, by decide⟩

/-- Witness for C9: a page of malformed records (missing ids, objects and
names) that all carry an actor is processed without failure. -/
theorem c9_witness :
    ∃ gs, processPage (some "me")
      [⟨none, "Follow", some ⟨none, none⟩, none⟩,
       ⟨some "z", "Like", some aliceActor, none⟩] = some gs :=
  c9_no_failure_when_actors_present.1 (some "me") _ (by decide)

/-!
## Claim C10: pages are processed independently
-/

/-- Claim C10: each fetched page is de-duplicated, filtered and grouped
independently and the per-page group lists are concatenated; an id repeated
on a later page is not removed, and groups never merge across page
boundaries — the same follow on two pages yields two groups, while the same
two records on one page yield one. -/
theorem c10_per_page_independence :
    (∀ (v : Option String) (ps : List (List Activity)),
      processPages v ps = (List.mapM (processPage v) ps).map List.flatten) ∧
    processPages (some "me") [[followAlice], [followAlice]]
      = some [⟨"Follow", [some aliceActor], none, some "1"⟩,
              ⟨"Follow", [some aliceActor], none, some "1"⟩] ∧
    processPages (some "me") [[followAlice, followAlice]]
      = some [⟨"Follow", [some aliceActor], none, some "1"⟩] := by
  refine ⟨?_, by decide, by decide⟩
  intro v ps
  induction ps with
  | nil =>
    rw [processPages, List.mapM_nil]
    rfl
  | cons p ps ih =>
    rw [processPages, ih, List.mapM_cons]
    cases h1 : processPage v p with
    | none => simp [h1]
    | some gs =>
      cases h2 : List.mapM (processPage v) ps with
      | none => simp [h1, h2]
      | some gss => simp [h1, h2]

end Ghost
